import Mathlib

/-!
Verification of the chess-method arbitration engine: the scoring
normalizer and arbitration loop of `main.py` (`run_experiment`), the
debate-text move extraction of `two_agent_debate_method.py`, the bounded
manager/verifier loop of `Manager_analysts_method.py`, and the structured
move proposal of `move_proposing_agent.py`.  Python strings are modelled
as lists of characters, Python floats on the integer-valued inputs that
occur here as exact rationals, and the external services (language model,
Stockfish oracle) as explicit function parameters.
-/

namespace ChessArb

/-- A Python string, modelled as its list of characters. -/
abbrev PyStr := List Char

/-- Result of `stockfish.get_evaluation` after a move, as consumed by
`run_experiment`: either a centipawn score or a mate distance, both from
the perspective of the side to move in the post-move position. -/
inductive EvalResult
  | cp (v : ℤ)
  | mate (m : ℤ)
  deriving DecidableEq, Repr

/-- The constant `MATE_VALUE_SCALE = 100000.0` of `main.py`. -/
def mateValueScale : ℚ := 100000

/-- The score computed by `run_experiment` (main.py lines 160-206) for an
evaluable move, on White's point-of-view scale.  `isWhiteTurnForFen` says
whether White was the side to move in the original position (and hence
the side that made the move being evaluated). -/
def normalizeScore (isWhiteTurnForFen : Bool) : EvalResult → ℚ
  | .mate m =>
      if isWhiteTurnForFen then
        if m = 0 then mateValueScale
        else if m > 0 then -mateValueScale + (m : ℚ)
        else mateValueScale - |(m : ℚ)|
      else
        if m = 0 then -mateValueScale
        else if m > 0 then mateValueScale - (m : ℚ)
        else -mateValueScale + |(m : ℚ)|
  | .cp v =>
      if isWhiteTurnForFen then -(v : ℚ) else (v : ℚ)

/-- A per-protocol score as stored in `current_fen_agent_eval_scores`:
either a finite float value or one of the `float('inf')` sentinels. -/
inductive Score
  | negInf
  | val (q : ℚ)
  | posInf
  deriving DecidableEq, Repr

/-- Numeric order on scores, with the infinities at the ends, matching
IEEE comparisons on the values that occur (no NaNs arise). -/
def Score.sle : Score → Score → Bool
  | .negInf, _ => true
  | .val _, .negInf => false
  | .val a, .val b => a ≤ b
  | .val _, .posInf => true
  | .posInf, .posInf => true
  | .posInf, _ => false

/-- Binary maximum as Python's `max` computes it (first argument kept on
ties). -/
def Score.smax (a b : Score) : Score := if Score.sle b a then a else b

/-- Binary minimum as Python's `min` computes it (first argument kept on
ties). -/
def Score.smin (a b : Score) : Score := if Score.sle a b then a else b

/-- Whether a score is a finite value rather than a sentinel. -/
def Score.isFinite : Score → Bool
  | .val _ => true
  | _ => false

/-- The `best_eval_score_for_this_fen` of main.py lines 219-223: maximum
of the collected scores when White is to move, minimum otherwise.
Returns `none` on an empty collection (Python would raise there; the
loop only reaches this point with a non-empty dict). -/
def bestOf (isWhiteTurn : Bool) : List Score → Option Score
  | [] => none
  | s :: rest =>
      some (rest.foldl (fun a b => if isWhiteTurn then Score.smax a b else Score.smin a b) s)

/-- The float tolerance `1e-9` of main.py line 230. -/
def tol : ℚ := 1 / 1000000000

/-- The comparison `abs(eval_score - best) < 1e-9` of main.py line 230.
On sentinel operands the Python float arithmetic produces `inf` or `nan`,
and the comparison is `False` either way. -/
def Score.closeTo : Score → Score → Bool
  | .val a, .val b => |a - b| < tol
  | _, _ => false

/-- The worst-case sentinel assigned on main.py lines 209, 212 and 216:
`-inf` when White is to move in the original position, `+inf` otherwise. -/
def sentinel (isWhiteTurn : Bool) : Score :=
  if isWhiteTurn then Score.negInf else Score.posInf

/-- Python `str.lower` on a single character, at the level of code
points (ASCII letters `A`-`Z`, code points 65-90, map 32 upward). -/
def pyLowerCp (n : ℕ) : ℕ :=
  if 65 ≤ n ∧ n ≤ 90 then n + 32 else n

/-- The code points of the literal `"Error:"` searched for on main.py
line 154. -/
def errorTokenCp : List ℕ := [69, 114, 114, 111, 114, 58]

/-- The test `"Error:" in agent_move_uci.lower()` of main.py line 154:
lower-case the string, then search it for the substring `"Error:"`. -/
def errorTokenPresent (s : PyStr) : Bool :=
  ((s.map fun c => pyLowerCp c.toNat).tails).any fun t => errorTokenCp.isPrefixOf t

/-- The branch condition of main.py line 154 for a returned value that is
a string: non-empty (truthy) and free of the error token. -/
def moveBranchTaken (s : PyStr) : Bool :=
  !s.isEmpty && !errorTokenPresent s

/-- The score `run_experiment` stores for one protocol on one position
(main.py lines 154-216).  `proposal` is the string the protocol returned
(`none` when it returned `None`, raised, or returned a non-string);
`oracleEval` is the result of `get_evaluation_dict_after_move` for the
proposed move (`none` when the oracle cannot evaluate it). -/
def scoreProposal (isWhiteTurn : Bool) (proposal : Option PyStr)
    (oracleEval : Option EvalResult) : Score :=
  match proposal with
  | none => sentinel isWhiteTurn
  | some s =>
      if moveBranchTaken s then
        match oracleEval with
        | some ev => Score.val (normalizeScore isWhiteTurn ev)
        | none => sentinel isWhiteTurn
      else sentinel isWhiteTurn

/-- Point attribution for one position (main.py lines 218-237): if some
score is finite (`any_method_produced_evaluable_move`), take the best
score in the direction given by the side to move; if the best is a
sentinel no one scores, otherwise every protocol within the tolerance of
the best receives a point. -/
def awardPoints (isWhiteTurn : Bool) (scores : List Score) : List Bool :=
  if scores.any Score.isFinite then
    match bestOf isWhiteTurn scores with
    | some b =>
        if b.isFinite then scores.map fun s => s.closeTo b
        else scores.map fun _ => false
    | none => scores.map fun _ => false
  else scores.map fun _ => false

/-- Word character for the regex word boundary: `[A-Za-z0-9_]` (the
statements fed to the extractor are ASCII). -/
def isWordChar (c : Char) : Bool :=
  c.isAlpha || c.isDigit || c = '_'

/-- A chess file letter `[a-h]`. -/
def isFileChar (c : Char) : Bool := 'a' ≤ c && c ≤ 'h'

/-- A chess rank digit `[1-8]`. -/
def isRankChar (c : Char) : Bool := '1' ≤ c && c ≤ '8'

/-- A lower-case promotion letter `[qrbn]`. -/
def isPromoChar (c : Char) : Bool :=
  c = 'q' || c = 'r' || c = 'b' || c = 'n'

/-- Attempt to match `([a-h][1-8][a-h][1-8][qrbn]?)\b` at the head of
the list, greedy on the optional promotion letter, backtracking to the
four-character form only when the fifth character could not be part of
the match at all (two_agent_debate_method.py line 61). -/
def tryStrict : List Char → Option (List Char)
  | a :: b :: c :: d :: rest =>
      if isFileChar a && isRankChar b && isFileChar c && isRankChar d then
        match rest with
        | [] => some [a, b, c, d]
        | e :: rest2 =>
            if isPromoChar e then
              match rest2 with
              | [] => some [a, b, c, d, e]
              | f :: _ => if !isWordChar f then some [a, b, c, d, e] else none
            else if !isWordChar e then some [a, b, c, d] else none
      else none
  | _ => none

/-- An ASCII alphanumeric character `[a-zA-Z0-9]`. -/
def isAsciiAlnum (c : Char) : Bool := c.isAlpha || c.isDigit

/-- Attempt to match `([a-zA-Z0-9]{4,5})\b` at the head of the list,
greedy (two_agent_debate_method.py line 65). -/
def tryLoose : List Char → Option (List Char)
  | a :: b :: c :: d :: rest =>
      if isAsciiAlnum a && isAsciiAlnum b && isAsciiAlnum c && isAsciiAlnum d then
        match rest with
        | [] => some [a, b, c, d]
        | e :: rest2 =>
            if isAsciiAlnum e then
              match rest2 with
              | [] => some [a, b, c, d, e]
              | f :: _ => if !isWordChar f then some [a, b, c, d, e] else none
            else if !isWordChar e then some [a, b, c, d] else none
      else none
  | _ => none

/-- All matches of a boundary-delimited pattern in the text, in order:
`re.findall` for the two patterns above.  `prevIsWord` records whether
the character before the current position is a word character (so the
initial call passes `false`); a match is attempted exactly at positions
preceded by a word boundary.  Matches of these patterns consist of word
characters and end at a boundary, so they can never overlap and the
position-by-position scan agrees with `re.findall`. -/
def findAllMatches (tryAt : List Char → Option (List Char)) :
    Bool → List Char → List (List Char)
  | _, [] => []
  | prevIsWord, c :: rest =>
      (if !prevIsWord then
        match tryAt (c :: rest) with
        | some tok => [tok]
        | none => []
      else []) ++ findAllMatches tryAt (isWordChar c) rest

/-- The shape test of two_agent_debate_method.py lines 68-71:
letter/digit/letter/digit with an optional trailing letter. -/
def isShapedMove : List Char → Bool
  | [a, b, c, d] => a.isAlpha && b.isDigit && c.isAlpha && d.isDigit
  | [a, b, c, d, e] => a.isAlpha && b.isDigit && c.isAlpha && d.isDigit && e.isAlpha
  | _ => false

/-- `TwoAgentDebateMethod._extract_uci_move` (lines 53-72): on non-empty
text, the last strict match if any; otherwise the last loose match that
shapes like a move; otherwise nothing. -/
def extractUciMove (text : PyStr) : Option PyStr :=
  if text.isEmpty then none
  else
    match (findAllMatches tryStrict false text).getLast? with
    | some m => some m
    | none =>
        ((findAllMatches tryLoose false text).reverse).find? isShapedMove

/-- Speaker tag in the debate transcript. -/
inductive Speaker
  | alpha
  | beta
  deriving DecidableEq, Repr

/-- One transcript entry of `run_debate`: round number, speaker,
statement text. -/
structure TranscriptEntry where
  round : ℕ
  speaker : Speaker
  text : PyStr
  deriving DecidableEq, Repr

/-- Working state of the debate loop: the latest statement of each
persona (initialized to the empty string) and the transcript so far. -/
structure DebateState where
  latestAlpha : PyStr
  latestBeta : PyStr
  transcript : List TranscriptEntry

/-- `TwoAgentDebateMethod.run_debate` (lines 74-157), with the model
calls abstracted: `alphaStmt i` and `betaStmt i` are the statements
recorded for round `i` (when the model call raises, the code substitutes
the error text as the statement, so these functions already cover that
branch).  Returns the final move and the transcript. -/
def runDebate (alphaStmt betaStmt : ℕ → PyStr) (numRounds : ℕ) :
    Option PyStr × List TranscriptEntry :=
  let st := (List.range numRounds).foldl
    (fun (st : DebateState) k =>
      let i := k + 1
      { latestAlpha := alphaStmt i
        latestBeta := betaStmt i
        transcript := st.transcript ++
          [⟨i, Speaker.alpha, alphaStmt i⟩, ⟨i, Speaker.beta, betaStmt i⟩] })
    ⟨[], [], []⟩
  let finalMove :=
    match extractUciMove st.latestBeta with
    | some m => some m
    | none => extractUciMove st.latestAlpha
  (finalMove, st.transcript)

/-- Python `str.lower` on one character (ASCII range), as a `Char`
function. -/
def pyLowerChar (c : Char) : Char := Char.ofNat (pyLowerCp c.toNat)

/-- The characters of the literal `"Error:"` as searched for (without
lower-casing) on Manager_analysts_method.py line 168. -/
def errorColonTok : PyStr := ['E', 'r', 'r', 'o', 'r', ':']

/-- The test `"Error:" in report` of Manager_analysts_method.py line
168. -/
def containsErrorColon (s : PyStr) : Bool :=
  s.tails.any fun t => errorColonTok.isPrefixOf t

/-- A JSON value found under a key of a parsed tool-call argument
object: a string, or some non-string value. -/
inductive JsonVal
  | str (s : PyStr)
  | other
  deriving DecidableEq, Repr

/-- One manager-model API response inside the decision loop of
`decide_move`: a transport exception, a plain text reply, or a tool call
(with `argsOk = false` when its argument text is not valid JSON, and
`moveArg` the value under the key `"move_uci"` if any). -/
inductive ManagerResp
  | apiError
  | text (s : PyStr)
  | toolCall (name : PyStr) (argsOk : Bool) (moveArg : Option JsonVal)
  deriving DecidableEq, Repr

/-- The judgment the positional-analyst verifier sub-call produces after
coercion (`_call_positional_analyst_llm_service`): always a record with
a boolean legality flag, the checked move and a reason. -/
structure Verdict where
  isLegal : Bool
  checkedMoveUci : PyStr
  reason : PyStr

/-- Name of the legality-check tool (`CHECK_LEGALITY_TOOL_NAME`). -/
def checkLegalityToolName : PyStr :=
  "consult_positional_analyst_for_legality".toList

/-- Name of the final-submission tool (`SUBMIT_FINAL_MOVE_TOOL_NAME`). -/
def submitFinalToolName : PyStr :=
  "submit_final_approved_move".toList

/-- Whether a manager response invokes the `submit_final` tool. -/
def isSubmitCall : ManagerResp → Bool
  | .toolCall name _ _ => name = submitFinalToolName
  | _ => false

/-- The promotion canonicalization of Manager_analysts_method.py lines
243-244: when the submitted move has five characters and its fifth is
one of `"QRNB"`, lower-case that character; otherwise leave the move
unchanged. -/
def canonicalizeFinalMove (s : PyStr) : PyStr :=
  match s with
  | [a, b, c, d, e] =>
      if e = 'Q' ∨ e = 'R' ∨ e = 'N' ∨ e = 'B' then [a, b, c, d, pyLowerChar e]
      else s
  | _ => s

/-- Instrumentation of one `decide_move` run: loop iterations begun,
verifier sub-calls made, and position-oracle (Stockfish) queries made.
The method body never references the evaluator, so nothing in the
embedding increments `oracleCalls`. -/
structure RunLog where
  iterations : ℕ
  verifierCalls : ℕ
  oracleCalls : ℕ
  deriving DecidableEq, Repr

/-- The two error returns of `decide_move`: failed advisory reports
(line 169), or loop exhaustion (line 268). -/
inductive DecideErr
  | analystsFailed
  | exhausted
  deriving DecidableEq, Repr

/-- Result of `decide_move`: a move string, or an error. -/
inductive DecideResult
  | move (m : PyStr)
  | error (e : DecideErr)
  deriving DecidableEq, Repr

/-- The manager decision loop of `decide_move` (lines 184-268).
`remaining` is the number of iterations left out of `MAX_ITERATIONS = 5`
and `i` the index of the current iteration; `resp i` abstracts the
manager model's response on iteration `i` (any dependence of the real
model on the conversation history is absorbed by quantifying over this
function).  An API error, a plain text reply, unparsable or invalid tool
arguments, a legality check, or an unknown tool all feed a message back
and consume the iteration; a `submit_final` call with a truthy string
argument returns the canonicalized move at once.  A legality check with
a truthy string argument performs one verifier sub-call. -/
def managerLoop (resp : ℕ → ManagerResp) (_verifier : PyStr → Verdict) :
    (remaining i : ℕ) → RunLog → DecideResult × RunLog
  | 0, _, log => (.error .exhausted, log)
  | r + 1, i, log =>
      let log := { log with iterations := log.iterations + 1 }
      match resp i with
      | .apiError => managerLoop resp _verifier r (i + 1) log
      | .text _ => managerLoop resp _verifier r (i + 1) log
      | .toolCall name argsOk moveArg =>
          if !argsOk then managerLoop resp _verifier r (i + 1) log
          else if name = checkLegalityToolName then
            match moveArg with
            | some (.str s) =>
                if s.isEmpty then managerLoop resp _verifier r (i + 1) log
                else
                  managerLoop resp _verifier r (i + 1)
                    { log with verifierCalls := log.verifierCalls + 1 }
            | _ => managerLoop resp _verifier r (i + 1) log
          else if name = submitFinalToolName then
            match moveArg with
            | some (.str s) =>
                if s.isEmpty then managerLoop resp _verifier r (i + 1) log
                else (.move (canonicalizeFinalMove s), log)
            | _ => managerLoop resp _verifier r (i + 1) log
          else managerLoop resp _verifier r (i + 1) log

/-- `ManagerAnalystsMethod.decide_move` (lines 159-268): two advisory
reports are produced first (abstracted as the strings `riskReport` and
`strategyReport`, which on an API failure contain the substituted error
text); if either contains `"Error:"` the protocol aborts, otherwise the
bounded manager loop runs for at most 5 iterations. -/
def decideMove (riskReport strategyReport : PyStr) (resp : ℕ → ManagerResp)
    (verifier : PyStr → Verdict) : DecideResult × RunLog :=
  if containsErrorColon riskReport || containsErrorColon strategyReport then
    (.error .analystsFailed, ⟨0, 0, 0⟩)
  else managerLoop resp verifier 5 0 ⟨0, 0, 0⟩

/-- Whitespace as stripped by Python `str.strip` (ASCII range). -/
def pyIsSpaceChar (c : Char) : Bool :=
  c = ' ' || c = '\t' || c = '\n' || c = '\x0d' || c = '\x0b' || c = '\x0c'

/-- Python `str.strip`: drop whitespace from both ends. -/
def pyStrip (s : PyStr) : PyStr :=
  ((s.dropWhile pyIsSpaceChar).reverse.dropWhile pyIsSpaceChar).reverse

/-- Python `str.isalnum` on the ASCII strings at hand: non-empty and all
alphanumeric. -/
def pyIsAlnumStr (s : PyStr) : Bool :=
  !s.isEmpty && s.all isAsciiAlnum

/-- The parse of a tool call's argument text in `propose_move`:
unparsable JSON, a parsed value that is not an object (so that `.get`
raises, caught by the outer handler), or an object with the value under
the key `"move"` if any. -/
inductive ProposeArgs
  | badJson
  | notDict
  | dict (moveField : Option JsonVal)
  deriving DecidableEq, Repr

/-- The API response `propose_move` receives: a transport exception, a
reply without tool calls, or a first tool call with a name and parsed
arguments. -/
inductive ProposeResp
  | transportError
  | noToolCalls
  | toolCall (name : PyStr) (args : ProposeArgs)
  deriving DecidableEq, Repr

/-- Name of the proposal tool of `MoveProposingAgent`. -/
def proposeToolName : PyStr := "propose_chess_move".toList

/-- The distinct descriptive error returns of `propose_move` (each a
distinct `"Error: ..."` string in the source). -/
inductive ProposeErr
  | apiError
  | noToolCall
  | unexpectedTool
  | jsonUnparsable
  | moveMissing
  | badFormat
  deriving DecidableEq, Repr

/-- Result of `propose_move`: a move string or an error string. -/
inductive ProposeResult
  | move (m : PyStr)
  | error (e : ProposeErr)
  deriving DecidableEq, Repr

/-- `MoveProposingAgent.propose_move` (lines 60-100) after the single
API call: validate the tool call and the shape of the move field,
returning the trimmed move on success and a descriptive error on every
violation; a `.get` on a non-object argument value raises and is caught
by the outer `except`, which also yields an error string. -/
def proposeMove (resp : ProposeResp) : ProposeResult :=
  match resp with
  | .transportError => .error .apiError
  | .noToolCalls => .error .noToolCall
  | .toolCall name args =>
      if name = proposeToolName then
        match args with
        | .badJson => .error .jsonUnparsable
        | .notDict => .error .apiError
        | .dict none => .error .moveMissing
        | .dict (some .other) => .error .moveMissing
        | .dict (some (.str m)) =>
            if m.isEmpty then .error .moveMissing
            else
              if 4 ≤ (pyStrip m).length ∧ (pyStrip m).length ≤ 5 ∧
                  pyIsAlnumStr (pyStrip m) = true then
                .move (pyStrip m)
              else .error .badFormat
      else .error .unexpectedTool

/-- The per-protocol running tally of `run_experiment` (main.py lines
80-101): `total_score`, `fens_processed_count`, `illegal_move_count`,
all initialized to 0. -/
structure MethodTally where
  totalScore : ℕ
  fensProcessed : ℕ
  illegalMoveCount : ℕ
  deriving DecidableEq, Repr

/-- What happened to one protocol on one position, as distinguished by
the branches of main.py lines 143-216: the proposal was evaluated by the
oracle (line 160), the oracle rejected it (line 207), the returned value
was not a usable move string (line 210), or the method call raised
(line 214). -/
inductive ProposalFate
  | evaluated
  | oracleRejected
  | invalidProposal
  | methodRaised
  deriving DecidableEq, Repr

/-- The updates `run_experiment` applies to one protocol's tally for one
position: `fens_processed_count` is incremented when the method call
returned (main.py line 152), `total_score` when the protocol tied for
the best score (line 237).  No statement in the experiment loop writes
`illegal_move_count`. -/
def updateTally (t : MethodTally) (fate : ProposalFate) (wonPoint : Bool) :
    MethodTally :=
  let t := if fate = ProposalFate.methodRaised then t
    else { t with fensProcessed := t.fensProcessed + 1 }
  if wonPoint then { t with totalScore := t.totalScore + 1 } else t

/-- One protocol's tally after a whole run, folded over its per-position
outcomes from the initial zero tally. -/
def runTally (events : List (ProposalFate × Bool)) : MethodTally :=
  events.foldl (fun t e => updateTally t e.1 e.2) ⟨0, 0, 0⟩

/-- Taken from the claim under scrutiny: the number of malformed or
illegal proposals a protocol actually made during a run (the oracle
rejected the move, or the returned value was unusable). -/
def countMalformed (events : List (ProposalFate × Bool)) : ℕ :=
  (events.filter fun e =>
    e.1 = ProposalFate.oracleRejected ∨ e.1 = ProposalFate.invalidProposal).length

/-- Modelled from the spec (§4.4 `normalize`): the mapping the claims
describe, phrased with an explicit `moverIsAnchor` flag.  A numeric
value is negated exactly when the side that just moved is the anchor
side; a mate distance maps through the stated `M`-scale, with the
symmetric signs when the non-anchor side made the move. -/
def specNormalize (moverIsAnchor : Bool) : EvalResult → ℚ
  | .cp v => if moverIsAnchor then -(v : ℚ) else (v : ℚ)
  | .mate m =>
      if moverIsAnchor then
        if m = 0 then mateValueScale
        else if m > 0 then -mateValueScale + (m : ℚ)
        else mateValueScale - |(m : ℚ)|
      else
        if m = 0 then -mateValueScale
        else if m > 0 then mateValueScale - (m : ℚ)
        else -mateValueScale + |(m : ℚ)|

/-- Taken from the claim under scrutiny: an ASCII lower-case letter. -/
def isAsciiLower (c : Char) : Bool := 'a' ≤ c && c ≤ 'z'

/-- Taken from the claim under scrutiny (and §4.1 of the spec): the
acceptance condition of the Structured Proposal Protocol — the move
field is present, is a string, and its trimmed value has length 4 or 5
and is alphanumeric — paired with the trimmed move it should return. -/
def claimAccepts : ProposeResp → Option PyStr
  | .toolCall name (.dict (some (.str m))) =>
      if name = proposeToolName ∧
          ((pyStrip m).length = 4 ∨ (pyStrip m).length = 5) ∧
          pyIsAlnumStr (pyStrip m) = true then
        some (pyStrip m)
      else none
  | _ => none

/-! Helper lemmas about the score order and the best-score fold. -/

theorem Score.sle_refl (a : Score) : a.sle a = true := by
  cases a <;> simp [Score.sle]

theorem Score.sle_total (a b : Score) : a.sle b = true ∨ b.sle a = true := by
  cases a <;> cases b <;> simp [Score.sle]
  exact le_total _ _

theorem Score.sle_trans {a b c : Score} (h1 : a.sle b = true)
    (h2 : b.sle c = true) : a.sle c = true := by
  cases a <;> cases b <;> cases c <;> simp_all [Score.sle]
  exact le_trans h1 h2

theorem Score.sle_smax_left (a b : Score) : a.sle (a.smax b) = true := by
  unfold Score.smax
  split
  · exact Score.sle_refl a
  · rcases Score.sle_total a b with h | h
    · exact h
    · simp_all

theorem Score.sle_smax_right (a b : Score) : b.sle (a.smax b) = true := by
  unfold Score.smax
  split
  · assumption
  · exact Score.sle_refl b

theorem Score.smin_sle_left (a b : Score) : (a.smin b).sle a = true := by
  unfold Score.smin
  split
  · exact Score.sle_refl a
  · rcases Score.sle_total a b with h | h
    · simp_all
    · exact h

theorem Score.smin_sle_right (a b : Score) : (a.smin b).sle b = true := by
  unfold Score.smin
  split
  · assumption
  · exact Score.sle_refl b

/-- The fold used by `bestOf`, abstracted over the direction. -/
def foldBest (w : Bool) (s : Score) (rest : List Score) : Score :=
  rest.foldl (fun a b => if w then Score.smax a b else Score.smin a b) s

theorem foldBest_cons (w : Bool) (s b : Score) (bs : List Score) :
    foldBest w s (b :: bs) =
      foldBest w (if w then Score.smax s b else Score.smin s b) bs := rfl

theorem smax_choice (u v : Score) : u.smax v = u ∨ u.smax v = v := by
  unfold Score.smax
  split
  · exact Or.inl rfl
  · exact Or.inr rfl

theorem smin_choice (u v : Score) : u.smin v = u ∨ u.smin v = v := by
  unfold Score.smin
  split
  · exact Or.inl rfl
  · exact Or.inr rfl

theorem foldBest_choice (w : Bool) (rest : List Score) (s : Score) :
    foldBest w s rest = s ∨ foldBest w s rest ∈ rest := by
  induction rest generalizing s with
  | nil => exact Or.inl rfl
  | cons b bs ih =>
      rw [foldBest_cons]
      have step : (if w then Score.smax s b else Score.smin s b) = s ∨
          (if w then Score.smax s b else Score.smin s b) = b := by
        cases w
        · simpa using smin_choice s b
        · simpa using smax_choice s b
      rcases ih (if w then Score.smax s b else Score.smin s b) with h | h
      · rw [h]
        rcases step with hs | hb
        · exact Or.inl hs
        · exact Or.inr (by rw [hb]; exact List.mem_cons_self _ _)
      · exact Or.inr (List.mem_cons_of_mem _ h)

theorem foldBest_acc_le (w : Bool) (rest : List Score) (s : Score) :
    (if w then s.sle (foldBest w s rest) else (foldBest w s rest).sle s) = true := by
  induction rest generalizing s with
  | nil => cases w <;> simp [foldBest, Score.sle_refl]
  | cons b bs ih =>
      rw [foldBest_cons]
      have h1 := ih (if w then Score.smax s b else Score.smin s b)
      cases w with
      | true =>
          simp only [if_true] at h1 ⊢
          exact Score.sle_trans (Score.sle_smax_left s b) h1
      | false =>
          simp only [Bool.false_eq_true, if_false] at h1 ⊢
          exact Score.sle_trans h1 (Score.smin_sle_left s b)

theorem foldBest_mem_le (w : Bool) (rest : List Score) (s x : Score)
    (hx : x ∈ rest) :
    (if w then x.sle (foldBest w s rest) else (foldBest w s rest).sle x) = true := by
  induction rest generalizing s with
  | nil => simp at hx
  | cons b bs ih =>
      rw [foldBest_cons]
      rcases List.mem_cons.mp hx with rfl | hmem
      · have h1 := foldBest_acc_le w bs (if w then Score.smax s x else Score.smin s x)
        cases w with
        | true =>
            simp only [if_true] at h1 ⊢
            exact Score.sle_trans (Score.sle_smax_right s x) h1
        | false =>
            simp only [Bool.false_eq_true, if_false] at h1 ⊢
            exact Score.sle_trans h1 (Score.smin_sle_right s x)
      · exact ih (if w then Score.smax s b else Score.smin s b) hmem

theorem bestOf_eq_foldBest (w : Bool) (s : Score) (rest : List Score) :
    bestOf w (s :: rest) = some (foldBest w s rest) := rfl

theorem bestOf_mem {w : Bool} {ss : List Score} {b : Score}
    (h : bestOf w ss = some b) : b ∈ ss := by
  cases ss with
  | nil => simp [bestOf] at h
  | cons s rest =>
      rw [bestOf_eq_foldBest] at h
      obtain rfl : foldBest w s rest = b := by injection h
      rcases foldBest_choice w rest s with h1 | h1
      · rw [h1]; exact List.mem_cons_self _ _
      · exact List.mem_cons_of_mem _ h1

theorem bestOf_bound {w : Bool} {ss : List Score} {b : Score}
    (h : bestOf w ss = some b) :
    ∀ x ∈ ss, (if w then x.sle b else b.sle x) = true := by
  cases ss with
  | nil => simp [bestOf] at h
  | cons s rest =>
      rw [bestOf_eq_foldBest] at h
      obtain rfl : foldBest w s rest = b := by injection h
      intro x hx
      rcases List.mem_cons.mp hx with rfl | hmem
      · exact foldBest_acc_le w rest x
      · exact foldBest_mem_le w rest s x hmem

theorem bestOf_isFinite {w : Bool} {ss : List Score} {b : Score}
    (hwf : ∀ s ∈ ss, s.isFinite = true ∨ s = sentinel w)
    (hany : ss.any Score.isFinite = true)
    (hb : bestOf w ss = some b) : b.isFinite = true := by
  obtain ⟨x, hxmem, hxfin⟩ := List.any_eq_true.mp hany
  have hbd := bestOf_bound hb x hxmem
  rcases hwf b (bestOf_mem hb) with h | h
  · exact h
  · cases x with
    | val q =>
        cases w <;> simp_all [sentinel, Score.sle]
    | negInf => simp [Score.isFinite] at hxfin
    | posInf => simp [Score.isFinite] at hxfin

/-! Evaluation lemmas for the normalizer on mate distances. -/

theorem normalize_mate_neg_true {m : ℤ} (hm : m < 0) :
    normalizeScore true (EvalResult.mate m) = mateValueScale - |(m : ℚ)| := by
  have h0 : ¬(m = 0) := by omega
  have h1 : ¬(m > 0) := by omega
  simp [normalizeScore, h0, h1]

theorem normalize_mate_pos_true {m : ℤ} (hm : 0 < m) :
    normalizeScore true (EvalResult.mate m) = -mateValueScale + (m : ℚ) := by
  have h0 : ¬(m = 0) := by omega
  simp [normalizeScore, h0, hm]

theorem normalize_mate_neg_false {m : ℤ} (hm : m < 0) :
    normalizeScore false (EvalResult.mate m) = -mateValueScale + |(m : ℚ)| := by
  have h0 : ¬(m = 0) := by omega
  have h1 : ¬(m > 0) := by omega
  simp [normalizeScore, h0, h1]

theorem normalize_mate_pos_false {m : ℤ} (hm : 0 < m) :
    normalizeScore false (EvalResult.mate m) = mateValueScale - (m : ℚ) := by
  have h0 : ¬(m = 0) := by omega
  simp [normalizeScore, h0, hm]

theorem abs_cast_neg_nat (N : ℕ) : |((-(N : ℤ) : ℤ) : ℚ)| = (N : ℚ) := by
  push_cast
  rw [abs_neg, abs_of_nonneg (Nat.cast_nonneg N)]

/-- C1 (counterexample to the claim as stated): the claim defines the
anchor side as the side to move in the original position, which is
always the side that made the evaluated move, so it demands that every
numeric evaluation be negated into an anchor-relative score.  On a
position with Black to move and a post-move numeric evaluation of `+50`
(for White, the next mover), the code stores `+50` unchanged — the
White-point-of-view value — while the claim mandates the anchor
(Black)-relative value `-50`. -/
theorem anchor_is_mover_normalization_counterexample :
    normalizeScore false (EvalResult.cp 50) = 50 ∧
    specNormalize true (EvalResult.cp 50) = -50 ∧
    (50 : ℚ) ≠ -50 := by
  refine ⟨by norm_num [normalizeScore], by norm_num [specNormalize], by norm_num⟩

/-- C1 (amended): with the anchor side taken to be White — the fixed
reference side of the code's single score scale — the normalizer is
exactly the claimed mapping: a numeric evaluation is negated when the
anchor (White) made the move and passed through otherwise, and a
forced-mate evaluation follows the stated `M`-scale mapping with the
symmetric signs when the non-anchor side made the move. -/
theorem normalizer_matches_spec_with_white_anchor (w : Bool) (ev : EvalResult) :
    normalizeScore w ev = specNormalize w ev := by
  cases ev <;> cases w <;> rfl

/-- C3 (counterexample to the claim as stated): forced-win scores do not
exceed the magnitude of *every* finite numeric score — a centipawn
evaluation of magnitude 100000 normalizes above the mate-in-1 score
99999. -/
theorem mate_magnitude_counterexample :
    normalizeScore true (EvalResult.mate (-1)) <
      |normalizeScore true (EvalResult.cp (-100000))| := by
  norm_num [normalizeScore, mateValueScale]

/-- C3 (amended): for every mate distance `N ≥ 1` and both anchor
assignments, a forced win in `N` plies scores strictly better for the
winner than one in `N + 1` plies, and forced-win (resp. forced-loss)
scores dominate (resp. are dominated by) the magnitude of every finite
numeric score whose magnitude stays below `M - N`; the unbounded
domination the claim states fails (see the counterexample). -/
theorem mate_scores_monotone_and_dominant (N : ℕ) (hN : 1 ≤ N) :
    (normalizeScore true (EvalResult.mate (-(N : ℤ))) >
      normalizeScore true (EvalResult.mate (-((N : ℤ) + 1)))) ∧
    (normalizeScore false (EvalResult.mate (-(N : ℤ))) <
      normalizeScore false (EvalResult.mate (-((N : ℤ) + 1)))) ∧
    ∀ v : ℤ, |(v : ℚ)| + (N : ℚ) < mateValueScale →
      (|normalizeScore true (EvalResult.cp v)| <
        normalizeScore true (EvalResult.mate (-(N : ℤ)))) ∧
      (normalizeScore true (EvalResult.mate (N : ℤ)) <
        -|normalizeScore true (EvalResult.cp v)|) ∧
      (normalizeScore false (EvalResult.mate (-(N : ℤ))) <
        -|normalizeScore false (EvalResult.cp v)|) ∧
      (|normalizeScore false (EvalResult.cp v)| <
        normalizeScore false (EvalResult.mate (N : ℤ))) := by
  have hNneg : (-(N : ℤ)) < 0 := by omega
  have hN1neg : (-((N : ℤ) + 1)) < 0 := by omega
  have hNpos : (0 : ℤ) < (N : ℤ) := by omega
  have habs : |((-(N : ℤ) : ℤ) : ℚ)| = (N : ℚ) := abs_cast_neg_nat N
  have habs1 : |((-((N : ℤ) + 1) : ℤ) : ℚ)| = (N : ℚ) + 1 := by
    push_cast
    rw [abs_neg, abs_of_nonneg (by positivity)]
  have hcpT : ∀ v : ℤ, normalizeScore true (EvalResult.cp v) = -(v : ℚ) := by
    intro v; simp [normalizeScore]
  have hcpF : ∀ v : ℤ, normalizeScore false (EvalResult.cp v) = (v : ℚ) := by
    intro v; simp [normalizeScore]
  refine ⟨?_, ?_, ?_⟩
  · rw [normalize_mate_neg_true hNneg, normalize_mate_neg_true hN1neg, habs, habs1]
    linarith
  · rw [normalize_mate_neg_false hNneg, normalize_mate_neg_false hN1neg, habs, habs1]
    linarith
  · intro v hv
    have hvabs : (0 : ℚ) ≤ |(v : ℚ)| := abs_nonneg _
    refine ⟨?_, ?_, ?_, ?_⟩
    · rw [hcpT, normalize_mate_neg_true hNneg, habs, abs_neg]
      linarith
    · rw [hcpT, normalize_mate_pos_true hNpos, abs_neg]
      push_cast
      linarith
    · rw [hcpF, normalize_mate_neg_false hNneg, habs]
      linarith
    · rw [hcpF, normalize_mate_pos_false hNpos]
      push_cast
      linarith

/-- Witness for the amended C3 theorem at `N = 1`, `v = 5`. -/
theorem mate_scores_monotone_and_dominant_witness :
    (1 ≤ 1) ∧
    (normalizeScore true (EvalResult.mate (-((1 : ℕ) : ℤ))) >
      normalizeScore true (EvalResult.mate (-(((1 : ℕ) : ℤ) + 1)))) ∧
    (|((5 : ℤ) : ℚ)| + ((1 : ℕ) : ℚ) < mateValueScale) ∧
    (|normalizeScore true (EvalResult.cp 5)| <
      normalizeScore true (EvalResult.mate (-((1 : ℕ) : ℤ)))) :=
  ⟨by norm_num,
   (mate_scores_monotone_and_dominant 1 (by norm_num)).1,
   by norm_num [mateValueScale],
   ((mate_scores_monotone_and_dominant 1 (by norm_num)).2.2 5
     (by norm_num [mateValueScale])).1⟩

/-- C4: a proposal the arbitration loop cannot score — the protocol
returned no usable string, or the oracle could not evaluate the move —
receives the worst-case sentinel, `-inf` exactly when the anchor (White)
is the side to move in the position; and when the best score of a
position is itself a sentinel, no protocol receives a point. -/
theorem unevaluable_sentinel_and_no_points :
    (∀ (w : Bool) (o : Option EvalResult), scoreProposal w none o = sentinel w) ∧
    (∀ (w : Bool) (s : PyStr), scoreProposal w (some s) none = sentinel w) ∧
    sentinel true = Score.negInf ∧ sentinel false = Score.posInf ∧
    (∀ (w : Bool) (ss : List Score) (b : Score),
      bestOf w ss = some b → b.isFinite = false →
      awardPoints w ss = ss.map fun _ => false) := by
  refine ⟨fun w o => rfl, ?_, rfl, rfl, ?_⟩
  · intro w s
    cases hmb : moveBranchTaken s <;> simp [scoreProposal, hmb]
  · intro w ss b hb hfin
    unfold awardPoints
    cases hany : ss.any Score.isFinite
    · simp
    · simp [hb, hfin]

/-- Witness for the C4 theorem: the sentinel branches and the
no-points rule evaluated on a one-protocol position with White to move
and an unscorable proposal. -/
theorem unevaluable_sentinel_and_no_points_witness :
    scoreProposal true (some ['x']) none = sentinel true ∧
    awardPoints true [Score.negInf] = [false] :=
  ⟨unevaluable_sentinel_and_no_points.2.1 true ['x'],
   unevaluable_sentinel_and_no_points.2.2.2.2 true [Score.negInf] Score.negInf
     (by decide) (by decide)⟩

/-- The tally update never touches the malformed counter. -/
theorem updateTally_illegalMoveCount (t : MethodTally) (fate : ProposalFate)
    (won : Bool) : (updateTally t fate won).illegalMoveCount = t.illegalMoveCount := by
  unfold updateTally
  split <;> split <;> rfl

/-- Folding any event list leaves the malformed counter unchanged. -/
theorem foldTally_illegalMoveCount (events : List (ProposalFate × Bool)) :
    ∀ t : MethodTally,
      (events.foldl (fun t e => updateTally t e.1 e.2) t).illegalMoveCount =
        t.illegalMoveCount := by
  induction events with
  | nil => intro t; rfl
  | cons e es ih =>
      intro t
      rw [List.foldl_cons, ih, updateTally_illegalMoveCount]

/-- C8 (the code contradicts the reported field): the experiment loop
never increments `illegal_move_count`, so the reported count of
malformed/illegal proposals is 0 on every run, including a run in which
the protocol actually made one malformed proposal. -/
theorem malformed_count_never_incremented :
    (∀ events : List (ProposalFate × Bool),
      (runTally events).illegalMoveCount = 0) ∧
    (runTally [(ProposalFate.invalidProposal, false)]).illegalMoveCount = 0 ∧
    countMalformed [(ProposalFate.invalidProposal, false)] = 1 :=
  ⟨fun events => foldTally_illegalMoveCount events ⟨0, 0, 0⟩, by decide, by decide⟩

/-- C2: on a position whose scores are finite values or the correct
sentinel, with at least one finite score, the winning score is the
maximum of the protocols' scores when the anchor (White) is to move and
the minimum otherwise (it is attained by some protocol and bounds all of
them in the right direction), and the points list awards one point to
exactly the protocols within the `1e-9` tolerance of it; on the concrete
scenario — White to move, post-move numeric evaluations `-30`, `-10`,
`+5` relative to the next mover — the normalized scores are `+30`,
`+10`, `-5`, the winning score is `+30`, and only the first protocol
receives a point. -/
theorem arbitration_winner_and_points (w : Bool) (ss : List Score) (b : Score)
    (hwf : ∀ s ∈ ss, s.isFinite = true ∨ s = sentinel w)
    (hany : ss.any Score.isFinite = true)
    (hb : bestOf w ss = some b) :
    (b ∈ ss ∧
      (∀ s ∈ ss, (if w then s.sle b else b.sle s) = true) ∧
      awardPoints w ss = ss.map fun s => s.closeTo b) ∧
    (normalizeScore true (EvalResult.cp (-30)) = 30 ∧
      normalizeScore true (EvalResult.cp (-10)) = 10 ∧
      normalizeScore true (EvalResult.cp 5) = -5 ∧
      bestOf true [Score.val 30, Score.val 10, Score.val (-5)] =
        some (Score.val 30) ∧
      awardPoints true [Score.val 30, Score.val 10, Score.val (-5)] =
        [true, false, false]) := by
  have hfin : b.isFinite = true := bestOf_isFinite hwf hany hb
  refine ⟨⟨bestOf_mem hb, bestOf_bound hb, ?_⟩, by norm_num [normalizeScore],
    by norm_num [normalizeScore], by norm_num [normalizeScore], by decide, ?_⟩
  · unfold awardPoints
    simp [hany, hb, hfin]
  · show awardPoints true [Score.val 30, Score.val 10, Score.val (-5)] =
      [true, false, false]
    simp only [awardPoints, bestOf, List.foldl_cons, List.foldl_nil, Score.smax,
      Score.smin, Score.sle, Score.isFinite, Score.closeTo, tol, List.any_cons,
      List.any_nil, List.map_cons, List.map_nil]
    norm_num

/-- Witness for the C2 theorem: the scenario list itself satisfies the
hypotheses with `b = 30`. -/
theorem arbitration_winner_and_points_witness :
    ((∀ s ∈ [Score.val 30, Score.val 10, Score.val (-5)],
        s.isFinite = true ∨ s = sentinel true) ∧
      [Score.val 30, Score.val 10, Score.val (-5)].any Score.isFinite = true ∧
      bestOf true [Score.val 30, Score.val 10, Score.val (-5)] =
        some (Score.val 30)) ∧
    Score.val 30 ∈ [Score.val 30, Score.val 10, Score.val (-5)] ∧
    awardPoints true [Score.val 30, Score.val 10, Score.val (-5)] =
      [Score.val 30, Score.val 10, Score.val (-5)].map
        fun s => s.closeTo (Score.val 30) := by
  have h := arbitration_winner_and_points true
    [Score.val 30, Score.val 10, Score.val (-5)] (Score.val 30)
    (by decide) (by decide) (by decide)
  exact ⟨⟨by decide, by decide, by decide⟩, h.1.1, h.1.2.2⟩

/-- Any lower-cased code point differs from the code point 69 of the
upper-case letter `E`. -/
theorem pyLowerCp_ne_E (n : ℕ) : pyLowerCp n ≠ 69 := by
  unfold pyLowerCp
  split <;> omega

/-- C7: the error-token test of the arbitration loop lower-cases the
returned string before searching for `"Error:"` (which contains an
upper-case `E`), so it never matches; consequently every non-empty
returned string — error messages included — takes the proposed-move
branch, and the sentinel can be reached for such a string only through
the oracle's rejection. -/
theorem error_token_check_never_matches :
    (∀ s : PyStr, errorTokenPresent s = false) ∧
    (∀ s : PyStr, moveBranchTaken s = !s.isEmpty) ∧
    (∀ (w : Bool) (s : PyStr) (o : Option EvalResult),
      scoreProposal w (some s) o =
        if s.isEmpty then sentinel w
        else
          match o with
          | some ev => Score.val (normalizeScore w ev)
          | none => sentinel w) := by
  have key : ∀ s : PyStr, errorTokenPresent s = false := by
    intro s
    unfold errorTokenPresent
    rw [List.any_eq_false]
    intro t ht hpre
    have hsuffix : t <:+ (s.map fun c => pyLowerCp c.toNat) :=
      (List.mem_tails _ _).mp ht
    have hpre2 : errorTokenCp <+: t := by
      rwa [List.isPrefixOf_iff_prefix] at hpre
    have h69t : (69 : ℕ) ∈ t := hpre2.subset (by simp [errorTokenCp])
    have h69 : (69 : ℕ) ∈ s.map fun c => pyLowerCp c.toNat := hsuffix.subset h69t
    obtain ⟨c, _, hc⟩ := List.mem_map.mp h69
    exact pyLowerCp_ne_E c.toNat hc
  refine ⟨key, ?_, ?_⟩
  · intro s
    unfold moveBranchTaken
    rw [key s]
    simp
  · intro w s o
    have hmb : moveBranchTaken s = !s.isEmpty := by
      unfold moveBranchTaken; rw [key s]; simp
    unfold scoreProposal
    dsimp only
    rw [hmb]
    cases he : s.isEmpty <;> simp [he]

/-- One step of the manager loop: unless the response is a
`submit_final` invocation, the loop recurses with one more iteration
logged and the oracle counter untouched; a `submit_final` invocation can
at most end the loop with a move. -/
theorem managerLoop_step (resp : ℕ → ManagerResp) (verifier : PyStr → Verdict)
    (r i : ℕ) (log : RunLog) :
    (∃ log2 : RunLog,
      managerLoop resp verifier (r + 1) i log =
        managerLoop resp verifier r (i + 1) log2 ∧
      log2.iterations = log.iterations + 1 ∧
      log2.oracleCalls = log.oracleCalls) ∨
    (isSubmitCall (resp i) = true ∧ ∃ m : PyStr,
      managerLoop resp verifier (r + 1) i log =
        (.move m, { log with iterations := log.iterations + 1 })) := by
  have hnc : ¬(submitFinalToolName = checkLegalityToolName) := by decide
  cases hresp : resp i with
  | apiError =>
      exact Or.inl ⟨⟨log.iterations + 1, log.verifierCalls, log.oracleCalls⟩,
        by simp [managerLoop, hresp], rfl, rfl⟩
  | text s =>
      exact Or.inl ⟨⟨log.iterations + 1, log.verifierCalls, log.oracleCalls⟩,
        by simp [managerLoop, hresp], rfl, rfl⟩
  | toolCall name argsOk moveArg =>
      cases argsOk with
      | false =>
          exact Or.inl ⟨⟨log.iterations + 1, log.verifierCalls, log.oracleCalls⟩,
            by simp [managerLoop, hresp], rfl, rfl⟩
      | true =>
          by_cases hc : name = checkLegalityToolName
          · cases moveArg with
            | none =>
                exact Or.inl ⟨⟨log.iterations + 1, log.verifierCalls, log.oracleCalls⟩,
                  by simp [managerLoop, hresp, hc], rfl, rfl⟩
            | some jv =>
                cases jv with
                | other =>
                    exact Or.inl
                      ⟨⟨log.iterations + 1, log.verifierCalls, log.oracleCalls⟩,
                        by simp [managerLoop, hresp, hc], rfl, rfl⟩
                | str s =>
                    cases he : s.isEmpty with
                    | true =>
                        exact Or.inl
                          ⟨⟨log.iterations + 1, log.verifierCalls, log.oracleCalls⟩,
                            by simp [managerLoop, hresp, hc, he], rfl, rfl⟩
                    | false =>
                        refine Or.inl ⟨⟨log.iterations + 1, log.verifierCalls + 1,
                          log.oracleCalls⟩, ?_, rfl, rfl⟩
                        simp [managerLoop, hresp, hc, he]
          · by_cases hsubm : name = submitFinalToolName
            · subst hsubm
              cases moveArg with
              | none =>
                  exact Or.inl
                    ⟨⟨log.iterations + 1, log.verifierCalls, log.oracleCalls⟩,
                      by simp [managerLoop, hresp, hnc], rfl, rfl⟩
              | some jv =>
                  cases jv with
                  | other =>
                      exact Or.inl
                        ⟨⟨log.iterations + 1, log.verifierCalls, log.oracleCalls⟩,
                          by simp [managerLoop, hresp, hnc], rfl, rfl⟩
                  | str s =>
                      cases he : s.isEmpty with
                      | true =>
                          exact Or.inl
                            ⟨⟨log.iterations + 1, log.verifierCalls, log.oracleCalls⟩,
                              by simp [managerLoop, hresp, hnc, he], rfl, rfl⟩
                      | false =>
                          refine Or.inr ⟨by simp [isSubmitCall, hresp],
                            canonicalizeFinalMove s, ?_⟩
                          simp [managerLoop, hresp, hnc, he]
            · exact Or.inl ⟨⟨log.iterations + 1, log.verifierCalls, log.oracleCalls⟩,
                by simp [managerLoop, hresp, hc, hsubm], rfl, rfl⟩

/-- When no response ever invokes `submit_final`, the loop consumes its
whole budget, returns the exhaustion error, and never touches the
oracle counter. -/
theorem managerLoop_no_submit (resp : ℕ → ManagerResp) (verifier : PyStr → Verdict)
    (hsub : ∀ j : ℕ, isSubmitCall (resp j) = false) :
    ∀ (r i : ℕ) (log : RunLog),
      (managerLoop resp verifier r i log).1 =
        DecideResult.error DecideErr.exhausted ∧
      (managerLoop resp verifier r i log).2.iterations = log.iterations + r ∧
      (managerLoop resp verifier r i log).2.oracleCalls = log.oracleCalls := by
  intro r
  induction r with
  | zero => intro i log; exact ⟨rfl, rfl, rfl⟩
  | succ r ih =>
      intro i log
      rcases managerLoop_step resp verifier r i log with
        ⟨log2, heq, hit, hor⟩ | ⟨hsubm, _⟩
      · rw [heq]
        obtain ⟨h1, h2, h3⟩ := ih (i + 1) log2
        exact ⟨h1, by omega, by rw [h3, hor]⟩
      · rw [hsub i] at hsubm
        exact absurd hsubm (by simp)

/-- On every input the manager loop begins at most `remaining`
iterations and never touches the oracle counter. -/
theorem managerLoop_bound (resp : ℕ → ManagerResp) (verifier : PyStr → Verdict) :
    ∀ (r i : ℕ) (log : RunLog),
      (managerLoop resp verifier r i log).2.iterations ≤ log.iterations + r ∧
      (managerLoop resp verifier r i log).2.oracleCalls = log.oracleCalls := by
  intro r
  induction r with
  | zero => intro i log; exact ⟨Nat.le_refl _, rfl⟩
  | succ r ih =>
      intro i log
      rcases managerLoop_step resp verifier r i log with
        ⟨log2, heq, hit, hor⟩ | ⟨_, m, heq⟩
      · rw [heq]
        obtain ⟨h1, h2⟩ := ih (i + 1) log2
        exact ⟨by omega, by rw [h2, hor]⟩
      · rw [heq]
        refine ⟨?_, rfl⟩
        show log.iterations + 1 ≤ log.iterations + (r + 1)
        omega

/-- C5: on a run whose advisory reports succeeded, whose verifier always
judges `is_legal = false`, and whose manager never invokes
`submit_final`, `decide_move` performs exactly 5 manager iterations,
never queries the position oracle, and terminates with the exhaustion
error; and on every input whatsoever the manager loop performs at most 5
iterations and never queries the oracle. -/
theorem manager_loop_bounded_exhaustion
    (risk strategy : PyStr) (resp : ℕ → ManagerResp) (verifier : PyStr → Verdict)
    (hrisk : containsErrorColon risk = false)
    (hstrat : containsErrorColon strategy = false)
    (_hleg : ∀ m : PyStr, (verifier m).isLegal = false)
    (hsub : ∀ i : ℕ, isSubmitCall (resp i) = false) :
    ((decideMove risk strategy resp verifier).1 =
        DecideResult.error DecideErr.exhausted ∧
      (decideMove risk strategy resp verifier).2.iterations = 5 ∧
      (decideMove risk strategy resp verifier).2.oracleCalls = 0) ∧
    (∀ (r2 s2 : PyStr) (rp : ℕ → ManagerResp) (vf : PyStr → Verdict),
      (decideMove r2 s2 rp vf).2.iterations ≤ 5 ∧
      (decideMove r2 s2 rp vf).2.oracleCalls = 0) := by
  constructor
  · have hdm : decideMove risk strategy resp verifier =
        managerLoop resp verifier 5 0 ⟨0, 0, 0⟩ := by
      unfold decideMove
      rw [hrisk, hstrat]
      simp
    obtain ⟨h1, h2, h3⟩ := managerLoop_no_submit resp verifier hsub 5 0 ⟨0, 0, 0⟩
    rw [hdm]
    exact ⟨h1, h2, h3⟩
  · intro r2 s2 rp vf
    by_cases hc : (containsErrorColon r2 || containsErrorColon s2) = true
    · simp [decideMove, hc]
    · have hc2 : (containsErrorColon r2 || containsErrorColon s2) = false := by
        simpa using hc
      obtain ⟨h1, h2⟩ := managerLoop_bound rp vf 5 0 ⟨0, 0, 0⟩
      simp only [decideMove, hc2, Bool.false_eq_true, if_false]
      exact ⟨h1, h2⟩

/-- Witness for the C5 theorem: succeeding advisory reports, a manager
that only ever replies with plain text, and a verifier that always says
illegal. -/
theorem manager_loop_bounded_exhaustion_witness :
    containsErrorColon ['o', 'k'] = false ∧
    (∀ m : PyStr, ((fun _ : PyStr => (⟨false, [], []⟩ : Verdict)) m).isLegal = false) ∧
    (∀ i : ℕ, isSubmitCall ((fun _ : ℕ => ManagerResp.text []) i) = false) ∧
    ((decideMove ['o', 'k'] ['o', 'k'] (fun _ => ManagerResp.text [])
        (fun _ => ⟨false, [], []⟩)).1 =
      DecideResult.error DecideErr.exhausted ∧
      (decideMove ['o', 'k'] ['o', 'k'] (fun _ => ManagerResp.text [])
        (fun _ => ⟨false, [], []⟩)).2.iterations = 5 ∧
      (decideMove ['o', 'k'] ['o', 'k'] (fun _ => ManagerResp.text [])
        (fun _ => ⟨false, [], []⟩)).2.oracleCalls = 0) :=
  ⟨by decide, fun m => rfl, fun i => rfl,
    (manager_loop_bounded_exhaustion ['o', 'k'] ['o', 'k']
      (fun _ => ManagerResp.text []) (fun _ => ⟨false, [], []⟩)
      (by decide) (by decide) (fun m => rfl) (fun i => rfl)).1⟩

/-- C6: the debate's final move comes from the two-tier extraction of
persona B's round-4 statement, falling back to persona A's round-4
statement, and is absent when both extractions fail; on any text the
extraction returns the last strict-pattern match when one exists and
otherwise the last loose-pattern token shaped like a move. -/
theorem debate_final_move_extraction (a b : ℕ → PyStr) :
    ((runDebate a b 4).1 =
      match extractUciMove (b 4) with
      | some m => some m
      | none => extractUciMove (a 4)) ∧
    (∀ t : PyStr, findAllMatches tryStrict false t ≠ [] →
      extractUciMove t = (findAllMatches tryStrict false t).getLast?) ∧
    (∀ t : PyStr, findAllMatches tryStrict false t = [] → t ≠ [] →
      extractUciMove t =
        ((findAllMatches tryLoose false t).reverse).find? isShapedMove) ∧
    (extractUciMove (b 4) = none → extractUciMove (a 4) = none →
      (runDebate a b 4).1 = none) := by
  have hmain : (runDebate a b 4).1 =
      match extractUciMove (b 4) with
      | some m => some m
      | none => extractUciMove (a 4) := rfl
  refine ⟨hmain, ?_, ?_, ?_⟩
  · intro t hne
    have ht : t.isEmpty = false := by
      cases t with
      | nil => exact absurd rfl hne
      | cons c rest => rfl
    unfold extractUciMove
    rw [ht]
    cases hl : (findAllMatches tryStrict false t).getLast? with
    | none =>
        exact absurd (List.getLast?_eq_none_iff.mp hl) hne
    | some m => simp
  · intro t hstrict ht
    have ht2 : t.isEmpty = false := by
      cases t with
      | nil => exact absurd rfl ht
      | cons c rest => rfl
    unfold extractUciMove
    rw [ht2, hstrict]
    simp
  · intro h1 h2
    rw [hmain, h1, h2]

/-- Witness for the C6 theorem: a concrete debate in which persona B's
final statement carries the move, plus concrete texts exercising the
strict tier, the loose tier and the double failure. -/
theorem debate_final_move_extraction_witness :
    ((runDebate (fun _ => ['a', '2', 'a', '3']) (fun _ => ['b', '2', 'b', '4']) 4).1 =
      some ['b', '2', 'b', '4']) ∧
    (findAllMatches tryStrict false ['x', ' ', 'e', '2', 'e', '4'] ≠ [] ∧
      extractUciMove ['x', ' ', 'e', '2', 'e', '4'] =
        (findAllMatches tryStrict false ['x', ' ', 'e', '2', 'e', '4']).getLast?) ∧
    ((runDebate (fun _ => ['z', 'z']) (fun _ => ['q', 'q']) 4).1 = none) := by
  refine ⟨?_, ⟨by decide, (debate_final_move_extraction
      (fun _ => ['a', '2', 'a', '3']) (fun _ => ['b', '2', 'b', '4'])).2.1
      ['x', ' ', 'e', '2', 'e', '4'] (by decide)⟩, ?_⟩
  · rw [(debate_final_move_extraction
      (fun _ => ['a', '2', 'a', '3']) (fun _ => ['b', '2', 'b', '4'])).1]
    decide
  · exact (debate_final_move_extraction
      (fun _ => ['z', 'z']) (fun _ => ['q', 'q'])).2.2.2 (by decide) (by decide)

/-- C9 (counterexample to the claim as stated): a 5-character move with
an upper-case promotion letter passes the Structured Proposal
Protocol's validation unchanged, and the debate extraction's loose tier
returns such a token unchanged, so not every 5-character returned move
has a lower-case fifth character. -/
theorem promotion_lowercase_counterexample :
    proposeMove (ProposeResp.toolCall proposeToolName
      (ProposeArgs.dict (some (JsonVal.str ['e', '7', 'e', '8', 'Q'])))) =
      ProposeResult.move ['e', '7', 'e', '8', 'Q'] ∧
    extractUciMove ['U', 's', 'e', ' ', 'e', '7', 'e', '8', 'Q'] =
      some ['e', '7', 'e', '8', 'Q'] ∧
    isAsciiLower 'Q' = false := by
  refine ⟨by decide, by decide, by decide⟩

/-- C9 (amended): only the Manager protocol canonicalizes the promotion
letter, and only when the submitted move has exactly five characters
with a fifth character among `Q`, `R`, `N`, `B` — that character is then
lower-cased; moves of any other shape pass through unchanged, and the
structured proposal returns the trimmed string with no further change
(the debate extraction likewise returns matched tokens verbatim, as the
counterexample shows). -/
theorem promotion_canonicalization_manager_only (a b c d e : Char)
    (he : e = 'Q' ∨ e = 'R' ∨ e = 'N' ∨ e = 'B') :
    canonicalizeFinalMove [a, b, c, d, e] = [a, b, c, d, pyLowerChar e] ∧
    isAsciiLower (pyLowerChar e) = true ∧
    (∀ a2 b2 c2 d2 e2 : Char, ¬(e2 = 'Q' ∨ e2 = 'R' ∨ e2 = 'N' ∨ e2 = 'B') →
      canonicalizeFinalMove [a2, b2, c2, d2, e2] = [a2, b2, c2, d2, e2]) ∧
    (∀ s : PyStr, s.length ≠ 5 → canonicalizeFinalMove s = s) ∧
    (∀ m t : PyStr,
      proposeMove (ProposeResp.toolCall proposeToolName
        (ProposeArgs.dict (some (JsonVal.str m)))) = ProposeResult.move t →
      t = pyStrip m) := by
  refine ⟨?_, ?_, ?_, ?_, ?_⟩
  · have hred : canonicalizeFinalMove [a, b, c, d, e] =
        if e = 'Q' ∨ e = 'R' ∨ e = 'N' ∨ e = 'B' then [a, b, c, d, pyLowerChar e]
        else [a, b, c, d, e] := rfl
    rw [hred, if_pos he]
  · rcases he with rfl | rfl | rfl | rfl <;> decide
  · intro a2 b2 c2 d2 e2 he2
    have hred : canonicalizeFinalMove [a2, b2, c2, d2, e2] =
        if e2 = 'Q' ∨ e2 = 'R' ∨ e2 = 'N' ∨ e2 = 'B' then
          [a2, b2, c2, d2, pyLowerChar e2]
        else [a2, b2, c2, d2, e2] := rfl
    rw [hred, if_neg he2]
  · intro s hs
    rcases s with _ | ⟨c1, _ | ⟨c2, _ | ⟨c3, _ | ⟨c4, _ | ⟨c5, rest⟩⟩⟩⟩⟩
    · rfl
    · rfl
    · rfl
    · rfl
    · rfl
    · cases rest with
      | nil => exact absurd rfl hs
      | cons c6 rest2 => rfl
  · intro m t h
    simp only [proposeMove, reduceIte] at h
    by_cases hm : m.isEmpty
    · rw [if_pos hm] at h
      simp at h
    · rw [if_neg hm] at h
      split at h
      · injection h with h2
        exact h2.symm
      · simp at h

/-- Witness for the amended C9 theorem at `e = 'Q'` with a concrete
submitted move and proposal. -/
theorem promotion_canonicalization_manager_only_witness :
    ('Q' = 'Q' ∨ 'Q' = 'R' ∨ 'Q' = 'N' ∨ 'Q' = 'B') ∧
    canonicalizeFinalMove ['e', '7', 'e', '8', 'Q'] =
      ['e', '7', 'e', '8', pyLowerChar 'Q'] ∧
    isAsciiLower (pyLowerChar 'Q') = true ∧
    ¬('K' = 'Q' ∨ 'K' = 'R' ∨ 'K' = 'N' ∨ 'K' = 'B') ∧
    canonicalizeFinalMove ['e', '7', 'e', '8', 'K'] = ['e', '7', 'e', '8', 'K'] :=
  ⟨Or.inl rfl,
    (promotion_canonicalization_manager_only 'e' '7' 'e' '8' 'Q' (Or.inl rfl)).1,
    (promotion_canonicalization_manager_only 'e' '7' 'e' '8' 'Q' (Or.inl rfl)).2.1,
    by decide,
    (promotion_canonicalization_manager_only 'e' '7' 'e' '8' 'Q'
      (Or.inl rfl)).2.2.1 'e' '7' 'e' '8' 'K' (by decide)⟩

/-- C10: the Structured Proposal Protocol returns a move exactly when
the tool-call response carries the expected tool with a string move
field whose trimmed value has length 4 or 5 and is alphanumeric — the
returned move being that trimmed value — and every violation produces
one of the descriptive error results rather than an exception. -/
theorem propose_validation_characterization (resp : ProposeResp) :
    (∀ m : PyStr,
      proposeMove resp = ProposeResult.move m ↔ claimAccepts resp = some m) ∧
    (claimAccepts resp = none →
      ∃ e : ProposeErr, proposeMove resp = ProposeResult.error e) := by
  rcases resp with _ | _ | ⟨name, args⟩
  · exact ⟨fun m => by simp [proposeMove, claimAccepts], fun _ => ⟨_, rfl⟩⟩
  · exact ⟨fun m => by simp [proposeMove, claimAccepts], fun _ => ⟨_, rfl⟩⟩
  · by_cases hn : name = proposeToolName
    · subst hn
      rcases args with _ | _ | mf
      · exact ⟨fun m => by simp [proposeMove, claimAccepts], fun _ => ⟨_, rfl⟩⟩
      · exact ⟨fun m => by simp [proposeMove, claimAccepts], fun _ => ⟨_, rfl⟩⟩
      · rcases mf with _ | jv
        · exact ⟨fun m => by simp [proposeMove, claimAccepts], fun _ => ⟨_, rfl⟩⟩
        · rcases jv with m0 | _
          · have claimEq : claimAccepts (ProposeResp.toolCall proposeToolName
                (ProposeArgs.dict (some (JsonVal.str m0)))) =
                if proposeToolName = proposeToolName ∧
                    ((pyStrip m0).length = 4 ∨ (pyStrip m0).length = 5) ∧
                    pyIsAlnumStr (pyStrip m0) = true then
                  some (pyStrip m0)
                else none := rfl
            by_cases hm : m0.isEmpty
            · have hnil : m0 = [] := List.isEmpty_iff.mp hm
              subst hnil
              refine ⟨fun m => ?_, fun _ => ⟨ProposeErr.moveMissing, rfl⟩⟩
              have hL : proposeMove (ProposeResp.toolCall proposeToolName
                  (ProposeArgs.dict (some (JsonVal.str [])))) =
                  ProposeResult.error ProposeErr.moveMissing := rfl
              have hR : claimAccepts (ProposeResp.toolCall proposeToolName
                  (ProposeArgs.dict (some (JsonVal.str [])))) = none := rfl
              rw [hL, hR]
              simp
            · by_cases hcond : 4 ≤ (pyStrip m0).length ∧ (pyStrip m0).length ≤ 5 ∧
                  pyIsAlnumStr (pyStrip m0) = true
              · have hclaim : proposeToolName = proposeToolName ∧
                    ((pyStrip m0).length = 4 ∨ (pyStrip m0).length = 5) ∧
                    pyIsAlnumStr (pyStrip m0) = true :=
                  ⟨rfl, by omega, hcond.2.2⟩
                have hL : proposeMove (ProposeResp.toolCall proposeToolName
                    (ProposeArgs.dict (some (JsonVal.str m0)))) =
                    ProposeResult.move (pyStrip m0) := by
                  simp [proposeMove, hm, hcond]
                have hR : claimAccepts (ProposeResp.toolCall proposeToolName
                    (ProposeArgs.dict (some (JsonVal.str m0)))) =
                    some (pyStrip m0) := by
                  rw [claimEq, if_pos hclaim]
                refine ⟨fun m => ?_, fun hnone => ?_⟩
                · rw [hL, hR]
                  constructor
                  · intro h
                    injection h with h2
                    rw [h2]
                  · intro h
                    injection h with h2
                    rw [h2]
                · rw [hR] at hnone
                  exact absurd hnone (by simp)
              · have hclaim : ¬(proposeToolName = proposeToolName ∧
                    ((pyStrip m0).length = 4 ∨ (pyStrip m0).length = 5) ∧
                    pyIsAlnumStr (pyStrip m0) = true) := by
                  intro hcl
                  exact hcond ⟨by omega, by omega, hcl.2.2⟩
                have hL : proposeMove (ProposeResp.toolCall proposeToolName
                    (ProposeArgs.dict (some (JsonVal.str m0)))) =
                    ProposeResult.error ProposeErr.badFormat := by
                  simp [proposeMove, hm, hcond]
                have hR : claimAccepts (ProposeResp.toolCall proposeToolName
                    (ProposeArgs.dict (some (JsonVal.str m0)))) = none := by
                  rw [claimEq, if_neg hclaim]
                refine ⟨fun m => ?_, fun _ => ⟨ProposeErr.badFormat, hL⟩⟩
                rw [hL, hR]
                simp
          · exact ⟨fun m => by simp [proposeMove, claimAccepts], fun _ => ⟨_, rfl⟩⟩
    · have hL : proposeMove (ProposeResp.toolCall name args) =
          ProposeResult.error ProposeErr.unexpectedTool := by
        simp [proposeMove, hn]
      have hR : claimAccepts (ProposeResp.toolCall name args) = none := by
        rcases args with _ | _ | mf
        · rfl
        · rfl
        · rcases mf with _ | jv
          · rfl
          · rcases jv with m0 | _
            · exact if_neg (fun hcl => hn hcl.1)
            · rfl
      refine ⟨fun m => ?_, fun _ => ⟨ProposeErr.unexpectedTool, hL⟩⟩
      rw [hL, hR]
      simp

/-- Witness for the C10 theorem: a well-formed tool call with move
`e2e4`, and a response without any tool call. -/
theorem propose_validation_characterization_witness :
    (proposeMove (ProposeResp.toolCall proposeToolName
        (ProposeArgs.dict (some (JsonVal.str ['e', '2', 'e', '4'])))) =
        ProposeResult.move ['e', '2', 'e', '4'] ↔
      claimAccepts (ProposeResp.toolCall proposeToolName
        (ProposeArgs.dict (some (JsonVal.str ['e', '2', 'e', '4'])))) =
        some ['e', '2', 'e', '4']) ∧
    (∃ e : ProposeErr,
      proposeMove ProposeResp.noToolCalls = ProposeResult.error e) :=
  ⟨(propose_validation_characterization (ProposeResp.toolCall proposeToolName
      (ProposeArgs.dict (some (JsonVal.str ['e', '2', 'e', '4']))))).1
      ['e', '2', 'e', '4'],
    (propose_validation_characterization ProposeResp.noToolCalls).2 rfl⟩

end ChessArb
